import Mathlib

/-!
Shallow embedding of the lowcode_to_code repository's extraction scripts:
`extract_details.py` (regex-based stage extraction and CSV export),
`xml_process_extractor.py` and `xml_get_elements.py` (XML splitters), and
`get_calendar_logic.py` (weekday bitmask decoding).

Document text is modelled as `List Char`.  Each Python regular expression
used by the scripts is modelled by a specialised scanning function that
follows the exact matching behaviour of that concrete pattern, including
the (forced) greedy choices and the points where real backtracking can
occur.  The character class \s is modelled over the ASCII range the input
documents use.
-/

abbrev Str := List Char

/-- ASCII whitespace: models the regex class \s and Python str.strip for the
ASCII documents the scripts consume. -/
def isPySpace (c : Char) : Bool :=
  c = ' ' || c = '\t' || c = '\n' || c = '\r' || c = '\x0b' || c = '\x0c'

/-- Match a literal token of a pattern: `dropLit pat s = some r` iff
`s = pat ++ r`. -/
def dropLit : Str → Str → Option Str
  | [], s => some s
  | _ :: _, [] => none
  | p :: ps, c :: cs => if c = p then dropLit ps cs else none

/-- Split at the first occurrence of `stop`: models a greedy `[^stop]*`
followed by the literal `stop` (the greedy run is forced because the class
excludes `stop`). -/
def breakOn (stop : Char) : Str → Option (Str × Str)
  | [] => none
  | c :: cs =>
    if c = stop then some ([], cs)
    else (breakOn stop cs).map (fun r => (c :: r.1, r.2))

/-- Find the first occurrence of the literal `pat`, returning the text
before it and the text after it: models a non-greedy `(.*?)` with DOTALL
followed by the literal `pat`. -/
def findLit (pat : Str) : Str → Option (Str × Str)
  | [] => (dropLit pat []).map (fun r => (([] : Str), r))
  | c :: cs =>
    match dropLit pat (c :: cs) with
    | some r => some ([], r)
    | none => (findLit pat cs).map (fun p => (c :: p.1, p.2))

/-- Models `\s+` followed by a token that cannot start with whitespace: one
whitespace character then the maximal whitespace run (the greedy choice is
forced). -/
def ws1 (s : Str) : Option Str :=
  match s with
  | c :: cs => if isPySpace c then some (cs.dropWhile isPySpace) else none
  | [] => none

/-- Models `([^"]+)"`: the capture runs to the next double quote, which is
then consumed; at least one character is required. -/
def quoteGrp (s : Str) : Option (Str × Str) :=
  match breakOn '"' s with
  | some (g, r) => if g.isEmpty then none else some (g, r)
  | none => none

/-- Models `lit([^"]+)"` at the current position. -/
def attrAt (lit : Str) (s : Str) : Option (Str × Str) := do
  let s1 ← dropLit lit s
  quoteGrp s1

/-- One match of the stage pattern of extract_details.py,
`<stage\s+stageid="([^"]+)"\s+name="([^"]+)"\s+type="([^"]+)"[^>]*>(.*?)</stage>`,
keeping the four capture groups. -/
structure StageM where
  stageid : String
  name : String
  type : String
  content : Str
deriving DecidableEq, Repr

/-- Attempt the stage pattern at the current position.  Every greedy or
lazy choice in the pattern is forced, so the attempt is deterministic. -/
def matchStageAt (s : Str) : Option (StageM × Str) := do
  let s1 ← dropLit (("<stage").toList) s
  let s2 ← ws1 s1
  let s3 ← dropLit (("stageid=\"").toList) s2
  let (g1, r1) ← quoteGrp s3
  let s4 ← ws1 r1
  let s5 ← dropLit (("name=\"").toList) s4
  let (g2, r2) ← quoteGrp s5
  let s6 ← ws1 r2
  let s7 ← dropLit (("type=\"").toList) s6
  let (g3, r3) ← quoteGrp s7
  let (_, r4) ← breakOn '>' r3
  let (body, rest) ← findLit (("</stage>").toList) r4
  pure (⟨String.mk g1, String.mk g2, String.mk g3, body⟩, rest)

/-- re.finditer scan for the stage pattern: try each position left to
right; after a match continue right after it (non-overlapping matches).
The fuel argument is instantiated with the text length, which bounds the
number of scanning steps. -/
def findStagesAux : Nat → Str → List StageM
  | 0, _ => []
  | _ + 1, [] => []
  | fuel + 1, c :: cs =>
    match matchStageAt (c :: cs) with
    | some (m, rest) => m :: findStagesAux fuel rest
    | none => findStagesAux fuel cs

/-- All matches of the stage pattern, in document order. -/
def findStages (s : Str) : List StageM := findStagesAux s.length s

/-- Attempt `subsheetid="([^"]+)"` after the `[^>]*` of the subsheet
pattern has consumed exactly `k` characters. -/
def subAttempt (s1 : Str) (k : Nat) : Option (Str × Str) :=
  attrAt (("subsheetid=\"").toList) (s1.drop k)

/-- Greedy backtracking of `[^>]*`: try the longest run first, then
shorter ones. -/
def subBack : Nat → Str → Option (Str × Str)
  | 0, s1 => subAttempt s1 0
  | k + 1, s1 =>
    match subAttempt s1 (k + 1) with
    | some r => some r
    | none => subBack k s1

/-- Attempt the subsheet pattern `<stage[^>]*subsheetid="([^"]+)"` at the
current position.  The `[^>]*` may consume at most the run of characters
before the next unquoted close angle bracket. -/
def matchSubAt (s : Str) : Option (Str × Str) := do
  let s1 ← dropLit (("<stage").toList) s
  subBack (s1.takeWhile (fun c => c ≠ '>')).length s1

/-- re.findall scan for the subsheet pattern (group captures only). -/
def findSubsAux : Nat → Str → List Str
  | 0, _ => []
  | _ + 1, [] => []
  | fuel + 1, c :: cs =>
    match matchSubAt (c :: cs) with
    | some (g, rest) => g :: findSubsAux fuel rest
    | none => findSubsAux fuel cs

/-- All subsheetid captures, in document order. -/
def findSubs (s : Str) : List Str := findSubsAux s.length s

/-- Keep the first occurrence of each value: models building `set(...)` and
listing it.  CPython iterates a str set in an unspecified (hash-seeded)
order; no claim depends on the order, so document order of first
occurrence is used. -/
def dedupAcc : List String → List String → List String
  | _, [] => []
  | seen, x :: xs =>
    if seen.contains x then dedupAcc seen xs
    else x :: dedupAcc (x :: seen) xs

/-- Models `re.search('lit([^<]+)closeL', content)`: first position where
the open literal matches, followed by a nonempty run up to the next `<`,
which must start the close literal. -/
def tagTextAt (openL closeL : Str) (s : Str) : Option Str := do
  let s1 ← dropLit openL s
  let g := s1.takeWhile (fun c => c ≠ '<')
  let _ ← dropLit closeL (s1.drop g.length)
  if g.isEmpty then none else pure g

/-- Scan of re.search for the tag-text patterns. -/
def searchTagText (openL closeL : Str) : Str → Option Str
  | [] => none
  | c :: cs =>
    match tagTextAt openL closeL (c :: cs) with
    | some g => some g
    | none => searchTagText openL closeL cs

/-- Scan of re.search for `lit([^"]+)"` attribute patterns. -/
def searchAttr (lit : Str) : Str → Option Str
  | [] => none
  | c :: cs =>
    match attrAt lit (c :: cs) with
    | some g => some g.1
    | none => searchAttr lit cs

/-- Attempt `<calculation expression="([^"]+)"\s+stage="([^"]+)"` at the
current position. -/
def calcAt (s : Str) : Option ((Str × Str) × Str) := do
  let s1 ← dropLit (("<calculation expression=\"").toList) s
  let (e, r1) ← quoteGrp s1
  let r2 ← ws1 r1
  let s2 ← dropLit (("stage=\"").toList) r2
  let (st, r3) ← quoteGrp s2
  pure ((e, st), r3)

/-- re.search for the calculation pattern. -/
def searchCalcPair : Str → Option (Str × Str)
  | [] => none
  | c :: cs =>
    match calcAt (c :: cs) with
    | some p => some p.1
    | none => searchCalcPair cs

/-- re.finditer for the calculation pattern (used inside a steps block). -/
def findCalcsAux : Nat → Str → List (Str × Str)
  | 0, _ => []
  | _ + 1, [] => []
  | fuel + 1, c :: cs =>
    match calcAt (c :: cs) with
    | some (p, rest) => p :: findCalcsAux fuel rest
    | none => findCalcsAux fuel cs

/-- All calculation captures in a steps block, in order. -/
def findCalcs (s : Str) : List (Str × Str) := findCalcsAux s.length s

/-- Models `re.search('<steps>(.*?)</steps>', content, re.DOTALL)`: the
first steps block.  The leftmost open tag with any later close tag is the
first open tag whenever a close tag exists after it, so the composition of
the two first-occurrence searches is exact. -/
def searchSteps (s : Str) : Option Str := do
  let (_, r1) ← findLit (("<steps>").toList) s
  let (inner, _) ← findLit (("</steps>").toList) r1
  pure inner

/-- The tail `\s*/?>` of the exception pattern.  The greedy whitespace run
is forced, and the optional slash backtracks only into the bare `>`. -/
def excTail (s : Str) : Bool :=
  match s.dropWhile isPySpace with
  | '/' :: '>' :: _ => true
  | '>' :: _ => true
  | _ => false

abbrev Exc4 := Option Str × Option Str × Option Str × Option Str

/-- Optional group `(?:usecurrent="([^"]+)")?` then `\s*/?>`: the matched
alternative is preferred, and on failure of the rest the group is given
up, as in regex backtracking. -/
def excU (l t d : Option Str) (s : Str) : Option Exc4 :=
  match attrAt (("usecurrent=\"").toList) s with
  | some (g, r) =>
    if excTail r then some (l, t, d, some g)
    else if excTail s then some (l, t, d, none) else none
  | none => if excTail s then some (l, t, d, none) else none

/-- Optional group `(?:detail="([^"]+)")?` then `\s*`, then the rest. -/
def excD (l t : Option Str) (s : Str) : Option Exc4 :=
  match attrAt (("detail=\"").toList) s with
  | some (g, r) =>
    match excU l t (some g) (r.dropWhile isPySpace) with
    | some res => some res
    | none => excU l t none s
  | none => excU l t none s

/-- Optional group `(?:type="([^"]+)")?` then `\s*`, then the rest. -/
def excT (l : Option Str) (s : Str) : Option Exc4 :=
  match attrAt (("type=\"").toList) s with
  | some (g, r) =>
    match excD l (some g) (r.dropWhile isPySpace) with
    | some res => some res
    | none => excD l none s
  | none => excD l none s

/-- Optional group `(?:localized="([^"]+)")?` then `\s*`, then the rest. -/
def excL (s : Str) : Option Exc4 :=
  match attrAt (("localized=\"").toList) s with
  | some (g, r) =>
    match excT (some g) (r.dropWhile isPySpace) with
    | some res => some res
    | none => excT none s
  | none => excT none s

/-- Attempt the exception pattern of extract_details.py at the current
position: `<exception\s+` followed by the four optional attribute groups
separated by `\s*`, then `\s*/?>`. -/
def exceptionAt (s : Str) : Option Exc4 := do
  let s1 ← dropLit (("<exception").toList) s
  let s2 ← ws1 s1
  excL s2

/-- re.search for the exception pattern. -/
def searchExc : Str → Option Exc4
  | [] => none
  | c :: cs =>
    match exceptionAt (c :: cs) with
    | some r => some r
    | none => searchExc cs

/-- Python str.replace: left-to-right, non-overlapping replacement of a
(nonempty) literal.  Fuel is the text length, which bounds the scan. -/
def replaceAllF : Nat → Str → Str → Str → Str
  | 0, _, _, s => s
  | fuel + 1, pat, rep, s =>
    match s with
    | [] => []
    | c :: cs =>
      match dropLit pat (c :: cs) with
      | some r => rep ++ replaceAllF fuel pat rep r
      | none => c :: replaceAllF fuel pat rep cs

/-- Python str.replace of one literal by another. -/
def replaceAll (pat rep s : Str) : Str := replaceAllF s.length pat rep s

/-- The entity decoding chain of extract_details.py:
`content.replace(chr(38) ++ "lt;", "<").replace(chr(38) ++ "gt;", ">")`
then the ampersand entity, in exactly that order. -/
def decodeEntities (s : Str) : Str :=
  replaceAll (("&amp;").toList) (("&").toList)
    (replaceAll (("&gt;").toList) ((">").toList)
      (replaceAll (("&lt;").toList) (("<").toList) s))

/-- One extracted stage record.  An outer `none` models a key that is
absent from the Python dict; for the Decision fields the inner `Option`
models a key that is present but bound to Python None. -/
structure StageInfo where
  stageid : String
  name : String
  type : String
  onsuccess : Option String
  expression : Option (Option String)
  ontrue : Option (Option String)
  onfalse : Option (Option String)
  calculation_stage : Option String
  localized : Option String
  exception_type : Option String
  exception_detail : Option String
  usecurrent : Option String
  calculations : Option (List (String × String))
deriving DecidableEq, Repr

/-- The record fields common to every stage kind, as initialised before
the per-kind branch of extract_process_details. -/
def baseInfo (m : StageM) : StageInfo :=
  { stageid := m.stageid
    name := m.name
    type := m.type
    onsuccess :=
      (searchTagText (("<onsuccess>").toList) (("</onsuccess>").toList)
        m.content).map String.mk
    expression := none
    ontrue := none
    onfalse := none
    calculation_stage := none
    localized := none
    exception_type := none
    exception_detail := none
    usecurrent := none
    calculations := none }

/-- The calculations list of a MultipleCalculation stage: all calculation
matches inside the first steps block, or the empty list when there is no
steps block. -/
def calcsOf (content : Str) : List (String × String) :=
  match searchSteps content with
  | some inner => (findCalcs inner).map (fun p => (String.mk p.1, String.mk p.2))
  | none => []

/-- The per-kind branch of extract_process_details applied to one stage
match. -/
def mkStageInfo (m : StageM) : StageInfo :=
  if m.type = "Decision" then
    { baseInfo m with
      expression := some ((searchAttr (("<decision expression=\"").toList) m.content).map String.mk)
      ontrue := some ((searchTagText (("<ontrue>").toList) (("</ontrue>").toList) m.content).map String.mk)
      onfalse := some ((searchTagText (("<onfalse>").toList) (("</onfalse>").toList) m.content).map String.mk) }
  else if m.type = "Calculation" then
    match searchCalcPair m.content with
    | some (e, st) =>
      { baseInfo m with
        expression := some (some (String.mk e))
        calculation_stage := some (String.mk st) }
    | none => baseInfo m
  else if m.type = "Exception" then
    match searchExc m.content with
    | some (l, t, d, u) =>
      { baseInfo m with
        localized := some (String.mk (l.getD []))
        exception_type := some (String.mk (t.getD []))
        exception_detail := some (String.mk (d.getD []))
        usecurrent := some (String.mk (u.getD [])) }
    | none => baseInfo m
  else if m.type = "MultipleCalculation" then
    { baseInfo m with calculations := some (calcsOf m.content) }
  else baseInfo m

/-- The result of extract_process_details: the deduplicated subsheet ids
and the stage records in document order. -/
structure Results where
  subsheet_ids : List String
  stages : List StageInfo
deriving DecidableEq, Repr

/-- extract_process_details of extract_details.py, taking the file content
as input (the Python function reads it from disk first). -/
def extract_process_details (xml_content : String) : Results :=
  let c := decodeEntities xml_content.data
  { subsheet_ids := dedupAcc [] ((findSubs c).map String.mk)
    stages := (findStages c).map mkStageInfo }

/-- The cell for `stage['onsuccess'] or ''`: Python None (and the empty
string) render as the empty string. -/
def cellOpt : Option String → String
  | none => ""
  | some s => s

/-- The cell for `stage.get(key, '')` on a key that may be absent or bound
to Python None: the csv writer renders None as the empty string. -/
def cellOptOpt : Option (Option String) → String
  | none => ""
  | some none => ""
  | some (some s) => s

/-- Escape of a string for Python repr, modelled for printable characters:
single quotes preferred, double quotes when the text has a single quote
and no double quote; backslashes and the wrapping quote are escaped. -/
def pyEsc (q : Char) (s : Str) : Str :=
  s.foldr
    (fun c acc =>
      if c = '\\' then '\\' :: '\\' :: acc
      else if c = q then '\\' :: q :: acc
      else c :: acc) []

/-- Python repr of a string (printable characters). -/
def pyRepr (s : String) : String :=
  if s.data.contains '\x27' && !(s.data.contains '"') then
    String.mk ('"' :: pyEsc '"' s.data ++ ['"'])
  else
    String.mk ('\x27' :: pyEsc '\x27' s.data ++ ['\x27'])

/-- Python str of one calculation dict
\x7b'expression': ..., 'stage': ...\x7d (insertion order of the keys). -/
def pyStrCalc (p : String × String) : String :=
  "\x7b\x27expression\x27: " ++ pyRepr p.1 ++ ", \x27stage\x27: " ++ pyRepr p.2 ++ "\x7d"

/-- Python str of the calculations list. -/
def pyStrCalcs (l : List (String × String)) : String :=
  "[" ++ String.intercalate ", " (l.map pyStrCalc) ++ "]"

/-- The Multiple_Calculations cell:
`str(stage.get('calculations', '')) if stage.get('calculations') else ''`.
An absent key and an empty list are both falsy and give the empty string. -/
def calcCell : Option (List (String × String)) → String
  | none => ""
  | some [] => ""
  | some (c :: cs) => pyStrCalcs (c :: cs)

/-- One data row of the stages CSV, in the column order of
export_to_csv. -/
def stageRow (idx : Nat) (s : StageInfo) : List String :=
  [toString idx, s.stageid, s.name, s.type, cellOpt s.onsuccess,
   cellOptOpt s.expression, cellOptOpt s.ontrue, cellOptOpt s.onfalse,
   cellOpt s.calculation_stage, cellOpt s.exception_type,
   cellOpt s.exception_detail, cellOpt s.localized, cellOpt s.usecurrent,
   calcCell s.calculations]

/-- The header row of the stages CSV. -/
def stageHeaders : List String :=
  ["Index", "StageID", "Name", "Type", "OnSuccess", "Expression", "OnTrue",
   "OnFalse", "Calculation_Stage", "Exception_Type", "Exception_Detail",
   "Localized", "UseCurrent", "Multiple_Calculations"]

/-- csv QUOTE_MINIMAL field serialization: quote when the field holds a
quote, comma or line break; double any quotes inside. -/
def csvField (s : String) : String :=
  if s.data.any (fun c => c = '"' || c = ',' || c = '\r' || c = '\n') then
    "\"" ++ String.mk (s.data.foldr (fun c acc => if c = '"' then '"' :: '"' :: acc else c :: acc) []) ++ "\""
  else s

/-- One serialized csv line, with the writer's default CRLF terminator. -/
def csvLine (cells : List String) : String :=
  String.intercalate "," (cells.map csvField) ++ "\x0d\n"

/-- The byte content of the stages CSV file. -/
def stagesCsv (r : Results) : String :=
  csvLine stageHeaders ++
    String.join (((List.range r.stages.length).zip r.stages).map
      (fun ks => csvLine (stageRow (ks.1 + 1) ks.2)))

/-- The byte content of the subsheets CSV file. -/
def subsheetsCsv (r : Results) : String :=
  csvLine ["Index", "SubsheetID"] ++
    String.join (((List.range r.subsheet_ids.length).zip r.subsheet_ids).map
      (fun ks => csvLine [toString (ks.1 + 1), ks.2]))

/-- The subsheets CSV path built by export_to_csv (posix os.path.join). -/
def subPath (folder_outputs output_file : String) : String :=
  folder_outputs ++ "/subsheets/" ++ output_file ++ "_subsheets.csv"

/-- The stages CSV path built by export_to_csv (posix os.path.join). -/
def stagePath (folder_outputs output_file : String) : String :=
  folder_outputs ++ "/stages/" ++ output_file ++ "_stages.csv"

/-- Writing a file in mode w: the path now maps to exactly this content,
and any previous file at the path is gone. -/
def fsWrite (fs : List (String × String)) (w : String × String) : List (String × String) :=
  (w.1, w.2) :: fs.filter (fun e => !(e.1 == w.1))

/-- A sequence of file writes, in order. -/
def runWrites (fs : List (String × String)) (ws : List (String × String)) : List (String × String) :=
  ws.foldl fsWrite fs

/-- Reading a file back from the filesystem model. -/
def fsRead (fs : List (String × String)) (p : String) : Option String :=
  (fs.find? (fun e => e.1 == p)).map (fun e => e.2)

/-- export_to_csv as a filesystem transformation: it writes the subsheets
CSV and then the stages CSV (directory creation is a no-op in the
model). -/
def export_to_csv (r : Results) (output_file folder_outputs : String)
    (fs : List (String × String)) : List (String × String) :=
  fsWrite (fsWrite fs (subPath folder_outputs output_file, subsheetsCsv r))
    (stagePath folder_outputs output_file, stagesCsv r)

/-- One pass of Python str.replace for a single character. -/
def repChar (a b : Char) (s : Str) : Str :=
  s.map (fun c => if c = a then b else c)

/-- The identifier sanitization used by both splitters:
`.replace(chr(32), chr(95)).replace(chr(47), chr(95))` - a space pass then
a slash pass. -/
def sanitizeChars (s : Str) : Str :=
  repChar '/' '_' (repChar ' ' '_' s)

/-- Sanitization on strings. -/
def sanitizeStr (s : String) : String := String.mk (sanitizeChars s.data)

mutual

/-- An ElementTree element after parsing: tag (namespaced tags carry the
brace-wrapped uri prefix as in ElementTree), attributes, text, children.
The children are a mutually defined forest so that every traversal is a
structural recursion. -/
inductive XmlElem where
  | mk (tag : String) (attr : List (String × String)) (text : Option String)
       (children : XmlForest)

inductive XmlForest where
  | nil
  | cons (e : XmlElem) (rest : XmlForest)

end

/-- The tag of an element. -/
def XmlElem.tag : XmlElem → String
  | .mk t _ _ _ => t

/-- The attribute mapping of an element. -/
def XmlElem.attr : XmlElem → List (String × String)
  | .mk _ a _ _ => a

/-- The text of an element. -/
def XmlElem.text : XmlElem → Option String
  | .mk _ _ tx _ => tx

/-- The children of an element. -/
def XmlElem.children : XmlElem → XmlForest
  | .mk _ _ _ cs => cs

/-- Whether an element has no children: the Python truth value of an
Element is exactly the presence of children. -/
def XmlElem.childless : XmlElem → Bool
  | .mk _ _ _ .nil => true
  | .mk _ _ _ (.cons _ _) => false

/-- The ElementTree tag prefix of the Blue Prism process namespace. -/
def nsProc : String := "\x7bhttp://www.blueprism.co.uk/product/process\x7d"

/-- Dictionary lookup in an attribute mapping. -/
def attrLookup (k : String) (l : List (String × String)) : Option String :=
  (l.find? (fun e => e.1 == k)).map (fun e => e.2)

/-- All elements of a forest with the given tag, together with their
matching descendants, in document order (preorder). -/
def descForest (t : String) : XmlForest → List XmlElem
  | .nil => []
  | .cons e cs =>
    match e with
    | .mk tg _ _ ch =>
      (if tg == t then [e] else []) ++ descForest t ch ++ descForest t cs

/-- All descendants of an element with the given tag, in document order:
models `element.findall('.//tag')`, which matches descendants only. -/
def descAll (t : String) (e : XmlElem) : List XmlElem :=
  descForest t e.children

/-- `element.find('.//tag')`: the first matching descendant. -/
def findDesc (t : String) (e : XmlElem) : Option XmlElem :=
  (descAll t e).head?

/-- Python `a or b` on ElementTree find results: an Element is falsy when
it has no children, so a found childless element is discarded in favour of
the second operand. -/
def etOr (a b : Option XmlElem) : Option XmlElem :=
  match a with
  | some e => if e.childless then b else some e
  | none => b

/-- `elem is not None and elem.text` as used for the identifier chain: the
text must be present and nonempty to be truthy. -/
def elemTextId (o : Option XmlElem) : Option String :=
  match o with
  | some e =>
    match e.text with
    | some t => if t == "" then none else some t
    | none => none
  | none => none

/-- The identifier derivation of split_by_process for one process element,
with `files_created` as the running counter: attribute id, else attribute
name, else the Python-or chain over the nested id and name lookups, else
the synthetic fallback. -/
def processIdOf (files_created : Nat) (p : XmlElem) : String :=
  match attrLookup ("id") p.attr with
  | some v => v
  | none =>
    match attrLookup ("name") p.attr with
    | some v => v
    | none =>
      let id_elem := etOr (findDesc ("id") p) (findDesc (nsProc ++ "id") p)
      let name_elem := etOr (findDesc ("name") p) (findDesc (nsProc ++ "name") p)
      match elemTextId id_elem with
      | some t => t
      | none =>
        match elemTextId name_elem with
        | some t => t
        | none => "unknown_process_" ++ toString files_created

/-- A plain serializer for a forest of elements (tag, attributes, text,
children each): stands for the prettify_xml output of split_by_process,
whose exact pretty-printed whitespace no claim depends on. -/
def serializeForest : XmlForest → String
  | .nil => ""
  | .cons e cs =>
    match e with
    | .mk t a tx ch =>
      "<" ++ t ++
        String.join (a.map (fun kv => " " ++ kv.1 ++ "=\"" ++ kv.2 ++ "\"")) ++
        ">" ++ (tx.getD "") ++ serializeForest ch ++ "</" ++ t ++ ">" ++
        serializeForest cs

/-- Serialization of a single element. -/
def serializeElem (e : XmlElem) : String :=
  serializeForest (.cons e .nil)

/-- prettify_xml of xml_process_extractor.py, modelled as a deterministic
serialization of the element (declaration plus element markup). -/
def prettify_xml (e : XmlElem) : String :=
  "<?xml version=\"1.0\" ?>\n" ++ serializeElem e ++ "\n"

/-- The path written for one process element in the tree branch of
split_by_process (posix os.path.join). -/
def procPath (output_dir : String) (files_created : Nat) (p : XmlElem) : String :=
  output_dir ++ "/process_" ++ sanitizeStr (processIdOf files_created p) ++ ".xml"

/-- The ordered writes of the tree branch of split_by_process: one file
per process element, with the running files_created counter equal to the
number of elements already processed. -/
def treeWrites (output_dir : String) (procs : List XmlElem) : List (String × String) :=
  ((List.range procs.length).zip procs).map
    (fun kp => (procPath output_dir kp.1 kp.2, prettify_xml kp.2))

/-- `root.findall('.//process')`, falling back to the namespaced selector
when the plain one finds nothing, as in split_by_process. -/
def processesOf (root : XmlElem) : List XmlElem :=
  let ps := descAll ("process") root
  if ps.isEmpty then descAll (nsProc ++ "process") root else ps

/-- Try `<bp:process` then `<process`: the optional `(?:bp:)?` prefers the
namespaced form and the two alternatives cannot both match. -/
def openScan (s : Str) : Option (Str × Str) :=
  match dropLit (("<bp:process").toList) s with
  | some r => some ((("<bp:process").toList), r)
  | none =>
    match dropLit (("<process").toList) s with
    | some r => some ((("<process").toList), r)
    | none => none

/-- Attempt `id="([^"]+)"` of the fallback pattern after `[^>]*` consumed
exactly `k` characters, returning the capture, the characters consumed
from the start of the run, and the rest. -/
def idAttempt (s1 : Str) (k : Nat) : Option (Str × Str × Str) :=
  match dropLit (("id=\"").toList) (s1.drop k) with
  | none => none
  | some s2 =>
    match quoteGrp s2 with
    | none => none
    | some (g, r) => some (g, s1.take k ++ ("id=\"").toList ++ g ++ ['"'], r)

/-- Greedy backtracking of `[^>]*` before `id="`: longest run first. -/
def idBack : Nat → Str → Option (Str × Str × Str)
  | 0, s1 => idAttempt s1 0
  | k + 1, s1 =>
    match idAttempt s1 (k + 1) with
    | some r => some r
    | none => idBack k s1

/-- The lazy `.*?</(?:bp:)?process>` of the fallback pattern: consume up to
and including the first close tag of either form. -/
def closeScan : Str → Option (Str × Str)
  | [] => none
  | c :: cs =>
    match dropLit (("</bp:process>").toList) (c :: cs) with
    | some r => some ((("</bp:process>").toList), r)
    | none =>
      match dropLit (("</process>").toList) (c :: cs) with
      | some r => some ((("</process>").toList), r)
      | none => (closeScan cs).map (fun p => (c :: p.1, p.2))

/-- Attempt the fallback pattern
`<(?:bp:)?process[^>]*id="([^"]+)".*?</(?:bp:)?process>` at the current
position, returning the id capture, the whole match (group 0) and the
rest. -/
def matchProcAt (s : Str) : Option (Str × Str × Str) :=
  match openScan s with
  | none => none
  | some (op, s1) =>
    match idBack (s1.takeWhile (fun c => c ≠ '>')).length s1 with
    | none => none
    | some (g, mid, s2) =>
      match closeScan s2 with
      | none => none
      | some (tail, rest) => some (g, op ++ mid ++ tail, rest)

/-- re.finditer scan for the fallback pattern: id capture and matched span
of each non-overlapping match, in document order. -/
def findProcsAux : Nat → Str → List (Str × Str)
  | 0, _ => []
  | _ + 1, [] => []
  | fuel + 1, c :: cs =>
    match matchProcAt (c :: cs) with
    | some (g, span, rest) => (g, span) :: findProcsAux fuel rest
    | none => findProcsAux fuel cs

/-- All fallback matches of the process pattern. -/
def findProcs (s : Str) : List (Str × Str) := findProcsAux s.length s

/-- The fresh declaration written before each fallback span. -/
def xmlDecl : String := "<?xml version=\"1.0\" encoding=\"utf-8\"?>\n"

/-- The ordered writes of the regex fallback branch of split_by_process:
for each match, the file named from the sanitized id capture, containing
the declaration followed by the matched span verbatim. -/
def fallbackWrites (output_dir : String) (c : Str) : List (String × String) :=
  (findProcs c).map
    (fun m => (output_dir ++ "/process_" ++ sanitizeStr (String.mk m.1) ++ ".xml",
               xmlDecl ++ String.mk m.2))

/-- The content wrapping of split_by_process: when the stripped text does
not start with an open angle bracket, wrap it in a root element. -/
def wrapContent (content : Str) : Str :=
  match content.dropWhile isPySpace with
  | '<' :: _ => content
  | _ => ("<root>").toList ++ content ++ ("</root>").toList

/-- The outcome of `ET.fromstring` on the wrapped content, which the model
takes as an input: the parser is library code outside this repository. -/
inductive ParseOutcome where
  | ok (root : XmlElem)
  | err

/-- The ordered writes of split_by_process: the tree branch on a
successful parse, the regex fallback on a parse error. -/
def splitByProcessWrites (outcome : ParseOutcome) (output_dir : String) (content : Str) :
    List (String × String) :=
  match outcome with
  | .ok root => treeWrites output_dir (processesOf root)
  | .err => fallbackWrites output_dir (wrapContent content)

/-- The identifier derivation of split_by_element for one element inside
the contents node: attribute id, else attribute name, else the first
registered namespace (bpr, bp, bpm in dictionary order) whose nested id -
or else name - element has nonempty text, else the synthetic fallback. -/
def elementIdOf (files_created : Nat) (nss : List String) (e : XmlElem) : String :=
  match attrLookup ("id") e.attr with
  | some v => v
  | none =>
    match attrLookup ("name") e.attr with
    | some v => v
    | none =>
      match nss with
      | [] => "unknown_" ++ toString files_created
      | ns :: rest =>
        match elemTextId (findDesc (ns ++ "id") e) with
        | some t => t
        | none =>
          match elemTextId (findDesc (ns ++ "name") e) with
          | some t => t
          | none => elementIdOf files_created rest e

/-- Binary digits of a natural number, most significant first, as in
Python bin(code) without the prefix; fuel is the number itself, which
bounds the number of halvings. -/
def binGoF : Nat → Nat → List Nat
  | 0, _ => []
  | fuel + 1, n => if n = 0 then [] else binGoF fuel (n / 2) ++ [n % 2]

/-- bin(code) without the 0b prefix, as a digit list. -/
def binDigits (n : Nat) : List Nat :=
  if n = 0 then [0] else binGoF n n

/-- zfill(7): pad with zeros on the left to at least seven digits. -/
def zfill7 (l : List Nat) : List Nat :=
  List.replicate (7 - l.length) 0 ++ l

/-- The weekday keys of get_calendar_logic.py. -/
def week_days : List Nat := [0, 1, 2, 3, 4, 5, 6]

/-- binary_to_dictionary of get_calendar_logic.py: seven padded binary
digits, reversed, rotated by one (Sunday bit moved to the end), keyed by
the weekdays, as an association list in insertion order. -/
def binary_to_dictionary (code : Nat) : List (Nat × Nat) :=
  let binary := zfill7 (binDigits code)
  let bits_array := binary.reverse
  let shifted := bits_array.drop 1 ++ [bits_array.headD 0]
  (List.range 7).map (fun i => (week_days.getD i 0, shifted.getD i 0))

/-- A concrete document with exactly one stage-pattern match. -/
def c1doc : String := "<stage stageid=\"a\" name=\"b\" type=\"c\"></stage>"

/-- A concrete Decision stage match with empty inner content: every
optional attribute and sub-element is absent. -/
def mDec : StageM := ⟨"s1", "n1", "Decision", []⟩

/-- A concrete stage match of an unregistered kind. -/
def mUnk : StageM := ⟨"s2", "n2", "Anchor", []⟩

/-- A concrete MultipleCalculation stage match with no steps block. -/
def mMC : StageM := ⟨"s3", "n3", "MultipleCalculation", []⟩

/-- A process element with no id or name attribute whose only identifier
holder is a childless nested id element with text. -/
def procTruthless : XmlElem :=
  .mk ("process") [] none (.cons (.mk ("id") [] (some ("P1")) .nil) .nil)

/-- A process element whose id attribute sanitizes to the same filename as
the one below. -/
def procA : XmlElem := .mk ("process") [("id", "A B")] none .nil

/-- A process element whose id attribute collides with the one above after
sanitization. -/
def procB : XmlElem := .mk ("process") [("id", "A/B")] none .nil

/-- A concrete malformed-parse document for the regex fallback. -/
def c4doc : String := "<a><process id=\"p1\">X</process></a>"

/-- The span the fallback pattern matches inside c4doc. -/
def c4span : String := "<process id=\"p1\">X</process>"

theorem mkStageInfo_onsuccess (m : StageM) :
    (mkStageInfo m).onsuccess = (baseInfo m).onsuccess := by
  unfold mkStageInfo
  split_ifs <;> (try split) <;> rfl

/-- Claim C1: on any document, extract_process_details returns one stage
record per match of the primary stage selector on the entity-decoded
content, in document order: if exactly N elements match, the stages list
has exactly N records and is the match list mapped to records. -/
theorem extract_returns_all_matches_in_order (content : String) (N : Nat)
    (h : (findStages (decodeEntities content.data)).length = N) :
    (extract_process_details content).stages.length = N
    ∧ (extract_process_details content).stages
        = (findStages (decodeEntities content.data)).map mkStageInfo := by
  refine ⟨?_, rfl⟩
  simpa [extract_process_details] using h

/-- Witness for C1 on a concrete one-stage document. -/
theorem extract_returns_all_matches_in_order_check :
    (findStages (decodeEntities (c1doc.data))).length = 1
    ∧ (extract_process_details c1doc).stages.length = 1 :=
  ⟨by decide, (extract_returns_all_matches_in_order c1doc 1 (by decide)).1⟩

/-- Claim C2: evaluation of the identifier chain of split_by_process on a
process element whose only identifier holder is a childless nested id
element with text P1.  The chain discards the found element because a
childless Element is falsy in the Python or-expression, and falls through
to the synthetic fallback instead of using the text P1. -/
theorem split_by_process_truthiness_eval :
    processIdOf 0 procTruthless = "unknown_process_0"
    ∧ elemTextId (findDesc ("id") procTruthless) = some "P1" := by
  decide

/-- Claim C9: for every code below 128, binary_to_dictionary yields the
keys 0..6 in order with bit values, where weekday d in 0..5 carries bit
d+1 of the code and key 6 (Sunday) carries bit 0. -/
theorem binary_to_dictionary_bits :
    ∀ code < 128,
      ((binary_to_dictionary code).map Prod.fst = [0, 1, 2, 3, 4, 5, 6])
      ∧ (∀ kv ∈ binary_to_dictionary code, kv.2 = 0 ∨ kv.2 = 1)
      ∧ (∀ d < 6, (binary_to_dictionary code).lookup d = some (code / 2 ^ (d + 1) % 2))
      ∧ ((binary_to_dictionary code).lookup 6 = some (code % 2)) := by
  decide

/-- Witness for C9 at code 65 (Saturday and Sunday set). -/
theorem binary_to_dictionary_bits_check :
    65 < 128
    ∧ (((binary_to_dictionary 65).map Prod.fst = [0, 1, 2, 3, 4, 5, 6])
       ∧ (∀ kv ∈ binary_to_dictionary 65, kv.2 = 0 ∨ kv.2 = 1)
       ∧ (∀ d < 6, (binary_to_dictionary 65).lookup d = some (65 / 2 ^ (d + 1) % 2))
       ∧ ((binary_to_dictionary 65).lookup 6 = some (65 % 2))) :=
  ⟨by decide, binary_to_dictionary_bits 65 (by decide)⟩

/-- Claim C7 counterexample: sanitization does not replace every
whitespace character - a tab survives both replacement passes, so the
claimed property fails on the identifier a-tab-b. -/
theorem sanitize_keeps_whitespace_cex :
    sanitizeStr ("a\tb") = "a\tb"
    ∧ ('\t' ∈ (sanitizeStr ("a\tb")).data ∧ isPySpace '\t' = true) := by
  decide

/-- Claim C7 amended: sanitization replaces exactly the plain space
character and the forward slash by underscores, leaving every other
character (including other whitespace) unchanged; no space or slash
remains in the output. -/
theorem sanitize_replaces_space_slash_only (s : String) :
    sanitizeStr s
      = String.mk (s.data.map (fun c => if c = ' ' then '_' else if c = '/' then '_' else c))
    ∧ (∀ c ∈ (sanitizeStr s).data, c ≠ ' ' ∧ c ≠ '/') := by
  constructor
  · unfold sanitizeStr sanitizeChars repChar
    rw [List.map_map]
    refine congrArg String.mk (List.map_congr_left ?_)
    intro c _
    by_cases h1 : c = ' ' <;> by_cases h2 : c = '/' <;> simp [h1, h2, Function.comp]
  · intro c hc
    unfold sanitizeStr sanitizeChars repChar at hc
    simp only [String.data, List.map_map, List.mem_map] at hc
    obtain ⟨a, _, ha⟩ := hc
    subst ha
    by_cases h1 : a = ' ' <;> by_cases h2 : a = '/' <;> simp [h1, h2, Function.comp]

/-- Witness for C7 amended on a concrete identifier with a space and a
slash. -/
theorem sanitize_replaces_space_slash_only_check :
    ('a' ∈ (sanitizeStr ("a b/c")).data) ∧ ('a' ≠ ' ' ∧ 'a' ≠ '/') :=
  ⟨by decide, (sanitize_replaces_space_slash_only ("a b/c")).2 'a' (by decide)⟩

/-- Claim C6: a stage match whose type is none of the registered kinds
yields exactly the base record - the common fields are populated from the
match and every kind-specific column of its CSV row is empty. -/
theorem unknown_kind_common_fields_only (m : StageM) (idx : Nat)
    (h1 : m.type ≠ "Decision") (h2 : m.type ≠ "Calculation")
    (h3 : m.type ≠ "Exception") (h4 : m.type ≠ "MultipleCalculation") :
    mkStageInfo m = baseInfo m
    ∧ (stageRow idx (mkStageInfo m)).take 4 = [toString idx, m.stageid, m.name, m.type]
    ∧ (stageRow idx (mkStageInfo m)).drop 5 = ["", "", "", "", "", "", "", "", ""] := by
  have hb : mkStageInfo m = baseInfo m := by
    unfold mkStageInfo
    rw [if_neg h1, if_neg h2, if_neg h3, if_neg h4]
  refine ⟨hb, ?_, ?_⟩ <;> rw [hb] <;> rfl

/-- Witness for C6 on a concrete Anchor-typed stage match. -/
theorem unknown_kind_common_fields_only_check :
    mkStageInfo mUnk = baseInfo mUnk
    ∧ (stageRow 1 (mkStageInfo mUnk)).take 4 = [toString 1, mUnk.stageid, mUnk.name, mUnk.type]
    ∧ (stageRow 1 (mkStageInfo mUnk)).drop 5 = ["", "", "", "", "", "", "", "", ""] :=
  unknown_kind_common_fields_only mUnk 1 (by decide) (by decide) (by decide) (by decide)

/-- Claim C10: a MultipleCalculation stage always carries a calculations
list (the empty list when there is no steps block), and its exported row
has exactly fourteen cells whose last is empty for the empty list and the
Python str rendering of the list otherwise. -/
theorem multiple_calculation_list_cell (m : StageM) (idx : Nat)
    (h : m.type = "MultipleCalculation") :
    (mkStageInfo m).calculations = some (calcsOf m.content)
    ∧ (searchSteps m.content = none → calcsOf m.content = [])
    ∧ (stageRow idx (mkStageInfo m)).length = 14
    ∧ (stageRow idx (mkStageInfo m)).get? 13
        = some (if calcsOf m.content = [] then "" else pyStrCalcs (calcsOf m.content)) := by
  have hb : mkStageInfo m = { baseInfo m with calculations := some (calcsOf m.content) } := by
    unfold mkStageInfo
    rw [h]
    rw [if_neg (by decide), if_neg (by decide), if_neg (by decide), if_pos rfl]
  refine ⟨by rw [hb], ?_, by rw [hb]; rfl, ?_⟩
  · intro hs
    unfold calcsOf
    rw [hs]
  · rw [hb]
    show some (calcCell (some (calcsOf m.content))) = _
    rcases hc : calcsOf m.content with _ | ⟨c, cs⟩
    · rfl
    · simp [calcCell]

/-- Witness for C10 on a concrete MultipleCalculation match with no steps
block. -/
theorem multiple_calculation_list_cell_check :
    (mkStageInfo mMC).calculations = some (calcsOf mMC.content)
    ∧ (stageRow 1 (mkStageInfo mMC)).length = 14
    ∧ (stageRow 1 (mkStageInfo mMC)).get? 13 = some "" := by
  have h := multiple_calculation_list_cell mMC 1 (by decide)
  refine ⟨h.1, h.2.2.1, ?_⟩
  have he : calcsOf mMC.content = [] := h.2.1 (by decide)
  rw [h.2.2.2, he]
  rfl

/-- Claim C5: a missing optional attribute or sub-element never raises -
the record field is set to the absent marker (Python None) and the
corresponding CSV cell is the empty string, never the literal word None:
when the onsuccess sub-element is missing the OnSuccess cell is empty, and
on a Decision stage each missing decision part gives an empty cell. -/
theorem missing_optional_fields_empty_cells (m : StageM) (idx : Nat) :
    (searchTagText (("<onsuccess>").toList) (("</onsuccess>").toList) m.content = none →
      (mkStageInfo m).onsuccess = none
      ∧ (stageRow idx (mkStageInfo m)).get? 4 = some ""
      ∧ (stageRow idx (mkStageInfo m)).get? 4 ≠ some "None")
    ∧ (m.type = "Decision" →
        (searchAttr (("<decision expression=\"").toList) m.content = none →
          (mkStageInfo m).expression = some none
          ∧ (stageRow idx (mkStageInfo m)).get? 5 = some ""
          ∧ (stageRow idx (mkStageInfo m)).get? 5 ≠ some "None")
        ∧ (searchTagText (("<ontrue>").toList) (("</ontrue>").toList) m.content = none →
          (mkStageInfo m).ontrue = some none
          ∧ (stageRow idx (mkStageInfo m)).get? 6 = some ""
          ∧ (stageRow idx (mkStageInfo m)).get? 6 ≠ some "None")
        ∧ (searchTagText (("<onfalse>").toList) (("</onfalse>").toList) m.content = none →
          (mkStageInfo m).onfalse = some none
          ∧ (stageRow idx (mkStageInfo m)).get? 7 = some ""
          ∧ (stageRow idx (mkStageInfo m)).get? 7 ≠ some "None")) := by
  constructor
  · intro h
    have ho : (mkStageInfo m).onsuccess = none := by
      rw [mkStageInfo_onsuccess]
      unfold baseInfo
      rw [h]
      rfl
    have hc : (stageRow idx (mkStageInfo m)).get? 4 = some "" := by
      show some (cellOpt (mkStageInfo m).onsuccess) = some ""
      rw [ho]
      rfl
    exact ⟨ho, hc, by rw [hc]; decide⟩
  · intro hD
    have hb : mkStageInfo m
        = { baseInfo m with
            expression := some ((searchAttr (("<decision expression=\"").toList) m.content).map String.mk)
            ontrue := some ((searchTagText (("<ontrue>").toList) (("</ontrue>").toList) m.content).map String.mk)
            onfalse := some ((searchTagText (("<onfalse>").toList) (("</onfalse>").toList) m.content).map String.mk) } := by
      unfold mkStageInfo
      rw [if_pos hD]
    refine ⟨fun h => ?_, fun h => ?_, fun h => ?_⟩
    · have hf : (mkStageInfo m).expression = some none := by rw [hb, h]; rfl
      have hc : (stageRow idx (mkStageInfo m)).get? 5 = some "" := by
        show some (cellOptOpt (mkStageInfo m).expression) = some ""
        rw [hf]
        rfl
      exact ⟨hf, hc, by rw [hc]; decide⟩
    · have hf : (mkStageInfo m).ontrue = some none := by rw [hb, h]; rfl
      have hc : (stageRow idx (mkStageInfo m)).get? 6 = some "" := by
        show some (cellOptOpt (mkStageInfo m).ontrue) = some ""
        rw [hf]
        rfl
      exact ⟨hf, hc, by rw [hc]; decide⟩
    · have hf : (mkStageInfo m).onfalse = some none := by rw [hb, h]; rfl
      have hc : (stageRow idx (mkStageInfo m)).get? 7 = some "" := by
        show some (cellOptOpt (mkStageInfo m).onfalse) = some ""
        rw [hf]
        rfl
      exact ⟨hf, hc, by rw [hc]; decide⟩

/-- Witness for C5 on a concrete Decision match with empty inner content:
every hypothesis holds and every inspected cell is empty. -/
theorem missing_optional_fields_empty_cells_check :
    (mkStageInfo mDec).onsuccess = none
    ∧ (stageRow 1 (mkStageInfo mDec)).get? 4 = some ""
    ∧ (mkStageInfo mDec).expression = some none
    ∧ (stageRow 1 (mkStageInfo mDec)).get? 5 = some ""
    ∧ (mkStageInfo mDec).ontrue = some none
    ∧ (stageRow 1 (mkStageInfo mDec)).get? 6 = some ""
    ∧ (mkStageInfo mDec).onfalse = some none
    ∧ (stageRow 1 (mkStageInfo mDec)).get? 7 = some "" := by
  have h := missing_optional_fields_empty_cells mDec 1
  have h1 := h.1 (by decide)
  have hd := h.2 (by decide)
  have h2 := hd.1 (by decide)
  have h3 := hd.2.1 (by decide)
  have h4 := hd.2.2 (by decide)
  exact ⟨h1.1, h1.2.1, h2.1, h2.2.1, h3.1, h3.2.1, h4.1, h4.2.1⟩

theorem filterIdem {α : Type} (p : α → Bool) (l : List α) :
    (l.filter p).filter p = l.filter p := by
  induction l with
  | nil => rfl
  | cons a l ih => cases hpa : p a <;> simp [List.filter_cons, hpa, ih]

theorem filterComm {α : Type} (p q : α → Bool) (l : List α) :
    (l.filter p).filter q = (l.filter q).filter p := by
  induction l with
  | nil => rfl
  | cons a l ih => cases hp : p a <;> cases hq : q a <;> simp [List.filter_cons, hp, hq, ih]

theorem filter_cons_keyEq (a c : String) (l : List (String × String)) :
    List.filter (fun e => !(e.1 == a)) ((a, c) :: l)
      = List.filter (fun e => !(e.1 == a)) l := by
  simp [List.filter_cons]

theorem filter_cons_keyNe (a b c : String) (l : List (String × String)) (h : ¬ b = a) :
    List.filter (fun e => !(e.1 == a)) ((b, c) :: l)
      = (b, c) :: List.filter (fun e => !(e.1 == a)) l := by
  simp [List.filter_cons, h]

theorem fsWrite_pair_idem (p1 p2 c1 c2 : String) (fs : List (String × String)) :
    fsWrite (fsWrite (fsWrite (fsWrite fs (p1, c1)) (p2, c2)) (p1, c1)) (p2, c2)
      = fsWrite (fsWrite fs (p1, c1)) (p2, c2) := by
  by_cases hp : p1 = p2
  · subst hp
    unfold fsWrite
    dsimp only
    rw [filter_cons_keyEq, filterIdem, filter_cons_keyEq, filterIdem,
      filter_cons_keyEq, filterIdem]
  · unfold fsWrite
    dsimp only
    rw [filter_cons_keyNe p2 p1 c1 _ hp,
      filter_cons_keyNe p2 p1 c1 _ hp,
      filter_cons_keyNe p1 p2 c2 _ (fun he => hp he.symm),
      filter_cons_keyEq p1 c1,
      filter_cons_keyEq p2 c2,
      filterComm (fun e => !(e.1 == p2)) (fun e => !(e.1 == p1)) (fs.filter (fun e => !(e.1 == p1))),
      filterIdem (fun e => !(e.1 == p1)) fs,
      filterIdem (fun e => !(e.1 == p2)) (fs.filter (fun e => !(e.1 == p1)))]

/-- Claim C8: export_to_csv is idempotent as a filesystem transformation -
running it a second time with the same records, identifier list and
destination names leaves every file byte-identical to the first run (the
content written depends only on its input and the second write of each
path overwrites the first). -/
theorem export_to_csv_idempotent (r : Results) (output_file folder_outputs : String)
    (fs : List (String × String)) :
    export_to_csv r output_file folder_outputs
        (export_to_csv r output_file folder_outputs fs)
      = export_to_csv r output_file folder_outputs fs := by
  unfold export_to_csv
  exact fsWrite_pair_idem _ _ _ _ fs

theorem find?_keyNe (fs : List (String × String)) (a p : String) (h : ¬ a = p) :
    (fs.filter (fun e => !(e.1 == a))).find? (fun e => e.1 == p)
      = fs.find? (fun e => e.1 == p) := by
  induction fs with
  | nil => rfl
  | cons e fs ih =>
    cases hea : (e.1 == a)
    · rw [List.filter_cons, hea]
      cases hep : (e.1 == p)
      · simp [List.find?_cons, hep, ih]
      · simp [List.find?_cons, hep]
    · rw [List.filter_cons, hea]
      have hep : (e.1 == p) = false := by
        have : e.1 = a := by simpa using hea
        simp [this, h]
      simp [List.find?_cons, hep, ih]

theorem fsRead_fsWrite (fs : List (String × String)) (w : String × String) (p : String) :
    fsRead (fsWrite fs w) p = if w.1 == p then some w.2 else fsRead fs p := by
  unfold fsRead fsWrite
  cases hw : (w.1 == p)
  · have hne : ¬ w.1 = p := by simpa using hw
    rw [if_neg (by simp [hw])]
    rw [List.find?_cons_of_neg _ (by simp [hw])]
    rw [find?_keyNe fs w.1 p hne]
  · rw [if_pos (by simp [hw])]
    rw [List.find?_cons_of_pos _ (by simp [hw])]
    rfl

theorem fsRead_runWrites (ws : List (String × String)) (fs : List (String × String)) (p : String) :
    fsRead (runWrites fs ws) p
      = match (ws.filter (fun w => w.1 == p)).getLast? with
        | some w => some w.2
        | none => fsRead fs p := by
  induction ws generalizing fs with
  | nil => rfl
  | cons w ws ih =>
    have step : runWrites fs (w :: ws) = runWrites (fsWrite fs w) ws := rfl
    rw [step, ih, List.filter_cons]
    cases hw : (w.1 == p)
    · rw [if_neg (by decide : ¬ (false = true))]
      cases hl : ((ws.filter (fun w => w.1 == p)).getLast?)
      · simp only [hl]
        rw [fsRead_fsWrite, if_neg (by simp [hw])]
      · simp only [hl]
    · rw [if_pos rfl]
      rcases hfw : ws.filter (fun w => w.1 == p) with _ | ⟨b, t⟩
      · rw [hfw]
        simp only [List.getLast?_singleton, List.getLast?_nil]
        rw [fsRead_fsWrite, if_pos (by simp [hw])]
      · rw [hfw, List.getLast?_cons_cons]
        rcases hbt : (b :: t).getLast? with _ | v
        · simp at hbt
        · simp only [hbt]

theorem countP_keyNe (fs : List (String × String)) (a p : String) (h : ¬ a = p) :
    (fs.filter (fun e => !(e.1 == a))).countP (fun e => e.1 == p)
      = fs.countP (fun e => e.1 == p) := by
  induction fs with
  | nil => rfl
  | cons e fs ih =>
    cases hea : (e.1 == a)
    · rw [List.filter_cons, hea]
      simp [List.countP_cons, ih]
    · rw [List.filter_cons, hea]
      have hep : (e.1 == p) = false := by
        have : e.1 = a := by simpa using hea
        simp [this, h]
      simp [List.countP_cons, hep, ih]

theorem countP_filter_self (fs : List (String × String)) (p : String) :
    (fs.filter (fun e => !(e.1 == p))).countP (fun e => e.1 == p) = 0 := by
  induction fs with
  | nil => rfl
  | cons e fs ih =>
    cases hep : (e.1 == p)
    · rw [List.filter_cons]
      simp [hep, List.countP_cons, ih]
    · rw [List.filter_cons]
      simp [hep, ih]

theorem countP_fsWrite (fs : List (String × String)) (w : String × String) (p : String) :
    (fsWrite fs w).countP (fun e => e.1 == p)
      = if w.1 == p then 1 else fs.countP (fun e => e.1 == p) := by
  unfold fsWrite
  cases hw : (w.1 == p)
  · have hne : ¬ w.1 = p := by simpa using hw
    rw [if_neg (by simp [hw])]
    simp [List.countP_cons, hw, countP_keyNe fs w.1 p hne]
  · have heq : w.1 = p := by simpa using hw
    rw [if_pos (by simp [hw])]
    rw [heq]
    simp [List.countP_cons, countP_filter_self]

theorem countP_runWrites_none (ws : List (String × String)) (fs : List (String × String))
    (p : String) (h : ws.filter (fun w => w.1 == p) = []) :
    (runWrites fs ws).countP (fun e => e.1 == p) = fs.countP (fun e => e.1 == p) := by
  induction ws generalizing fs with
  | nil => rfl
  | cons w ws ih =>
    rw [List.filter_cons] at h
    cases hw : (w.1 == p)
    · rw [hw, if_neg (by decide : ¬ (false = true))] at h
      have step : runWrites fs (w :: ws) = runWrites (fsWrite fs w) ws := rfl
      rw [step, ih _ h, countP_fsWrite, if_neg (by simp [hw])]
    · rw [hw, if_pos rfl] at h
      simp at h
  
theorem countP_runWrites_one (ws : List (String × String)) (fs : List (String × String))
    (p : String) (h : ws.filter (fun w => w.1 == p) ≠ []) :
    (runWrites fs ws).countP (fun e => e.1 == p) = 1 := by
  induction ws generalizing fs with
  | nil => exact absurd rfl h
  | cons w ws ih =>
    have step : runWrites fs (w :: ws) = runWrites (fsWrite fs w) ws := rfl
    rw [step]
    rcases hfw : ws.filter (fun w => w.1 == p) with _ | ⟨b, t⟩
    · rw [List.filter_cons, hfw] at h
      cases hw : (w.1 == p)
      · rw [hw] at h
        simp at h
      · rw [countP_runWrites_none ws _ p hfw, countP_fsWrite, if_pos (by simp [hw])]
    · exact ih _ (by rw [hfw]; simp)

/-- Claim C3: when exactly two writes of a split run target the same
sanitized-identifier path, the later write overwrites the earlier one -
afterwards exactly one file exists at that path and it holds the later
element's serialized content. -/
theorem split_collision_last_write_wins (elems : List XmlElem) (output_dir : String)
    (fs0 : List (String × String)) (p c1 c2 : String)
    (h : (treeWrites output_dir elems).filter (fun w => w.1 == p) = [(p, c1), (p, c2)]) :
    fsRead (runWrites fs0 (treeWrites output_dir elems)) p = some c2
    ∧ (runWrites fs0 (treeWrites output_dir elems)).countP (fun e => e.1 == p) = 1 := by
  constructor
  · rw [fsRead_runWrites, h]
    rfl
  · exact countP_runWrites_one _ _ _ (by rw [h]; simp)

/-- Witness for C3 on a concrete two-element run whose ids A-space-B and
A-slash-B sanitize to the same filename. -/
theorem split_collision_last_write_wins_check :
    ((treeWrites ("out") [procA, procB]).filter (fun w => w.1 == "out/process_A_B.xml")
       = [("out/process_A_B.xml", prettify_xml procA), ("out/process_A_B.xml", prettify_xml procB)])
    ∧ fsRead (runWrites [] (treeWrites ("out") [procA, procB])) "out/process_A_B.xml"
        = some (prettify_xml procB)
    ∧ (runWrites [] (treeWrites ("out") [procA, procB])).countP
        (fun e => e.1 == "out/process_A_B.xml") = 1 := by
  have hf : (treeWrites ("out") [procA, procB]).filter (fun w => w.1 == "out/process_A_B.xml")
      = [("out/process_A_B.xml", prettify_xml procA), ("out/process_A_B.xml", prettify_xml procB)] := by
    decide
  have h := split_collision_last_write_wins [procA, procB] ("out") []
    "out/process_A_B.xml" (prettify_xml procA) (prettify_xml procB) hf
  exact ⟨hf, h.1, h.2⟩

theorem dropLit_eq (pat : Str) : ∀ s r, dropLit pat s = some r → s = pat ++ r := by
  induction pat with
  | nil =>
    intro s r h
    simp [dropLit] at h
    rw [h]
    rfl
  | cons p ps ih =>
    intro s r h
    cases s with
    | nil => simp [dropLit] at h
    | cons c cs =>
      by_cases hc : c = p
      · rw [dropLit, if_pos hc] at h
        rw [hc, List.cons_append]
        exact congrArg _ (ih cs r h)
      · rw [dropLit, if_neg hc] at h
        cases h

theorem breakOn_eq (stop : Char) : ∀ s a b, breakOn stop s = some (a, b) → s = a ++ stop :: b := by
  intro s
  induction s with
  | nil => intro a b h; cases h
  | cons c cs ih =>
    intro a b h
    by_cases hc : c = stop
    · rw [breakOn, if_pos hc] at h
      cases h
      rw [hc]
      rfl
    · rw [breakOn, if_neg hc] at h
      rcases hb : breakOn stop cs with _ | ⟨a2, b2⟩
      · rw [hb] at h
        cases h
      · rw [hb] at h
        cases h
        rw [List.cons_append]
        exact congrArg _ (ih a2 b2 hb)

theorem quoteGrp_eq (s g r : Str) (h : quoteGrp s = some (g, r)) : s = g ++ '"' :: r := by
  unfold quoteGrp at h
  rcases hb : breakOn '"' s with _ | ⟨a2, b2⟩
  · rw [hb] at h
    cases h
  · rw [hb] at h
    dsimp only at h
    by_cases he : a2.isEmpty
    · rw [if_pos he] at h
      cases h
    · rw [if_neg he] at h
      cases h
      exact breakOn_eq '"' s g r hb

theorem idAttempt_eq (s1 : Str) (k : Nat) (g mid r : Str)
    (h : idAttempt s1 k = some (g, mid, r)) : s1 = mid ++ r := by
  unfold idAttempt at h
  rcases hd : dropLit (("id=\"").toList) (s1.drop k) with _ | s2
  · rw [hd] at h
    cases h
  · rw [hd] at h
    dsimp only at h
    rcases hq : quoteGrp s2 with _ | ⟨g0, r0⟩
    · rw [hq] at h
      cases h
    · rw [hq] at h
      cases h
      have h2 : s1.drop k = ("id=\"").toList ++ s2 := dropLit_eq _ _ _ hd
      have h3 := quoteGrp_eq _ _ _ hq
      conv_lhs => rw [← List.take_append_drop k s1]
      rw [h2, h3]
      simp

theorem idBack_eq : ∀ (k : Nat) (s1 g mid r : Str),
    idBack k s1 = some (g, mid, r) → s1 = mid ++ r := by
  intro k
  induction k with
  | zero => intro s1 g mid r h; exact idAttempt_eq s1 0 g mid r h
  | succ k ih =>
    intro s1 g mid r h
    unfold idBack at h
    rcases ha : idAttempt s1 (k + 1) with _ | r0
    · rw [ha] at h
      dsimp only at h
      exact ih s1 g mid r h
    · rw [ha] at h
      dsimp only at h
      cases h
      exact idAttempt_eq s1 (k + 1) g mid r ha

theorem openScan_eq (s op r : Str) (h : openScan s = some (op, r)) :
    s = op ++ r ∧ (op = ("<bp:process").toList ∨ op = ("<process").toList) := by
  unfold openScan at h
  rcases h1 : dropLit (("<bp:process").toList) s with _ | r1
  · rw [h1] at h
    dsimp only at h
    rcases h2 : dropLit (("<process").toList) s with _ | r2
    · rw [h2] at h
      dsimp only at h
      cases h
    · rw [h2] at h
      dsimp only at h
      cases h
      exact ⟨dropLit_eq _ _ _ h2, Or.inr rfl⟩
  · rw [h1] at h
    dsimp only at h
    cases h
    exact ⟨dropLit_eq _ _ _ h1, Or.inl rfl⟩

theorem closeScan_eq : ∀ (s a b : Str), closeScan s = some (a, b) →
    s = a ++ b
    ∧ ((∃ m, a = m ++ ("</bp:process>").toList) ∨ (∃ m, a = m ++ ("</process>").toList)) := by
  intro s
  induction s with
  | nil => intro a b h; cases h
  | cons c cs ih =>
    intro a b h
    unfold closeScan at h
    rcases h1 : dropLit (("</bp:process>").toList) (c :: cs) with _ | r1
    · rw [h1] at h
      dsimp only at h
      rcases h2 : dropLit (("</process>").toList) (c :: cs) with _ | r2
      · rw [h2] at h
        dsimp only at h
        rcases h3 : closeScan cs with _ | ⟨a2, b2⟩
        · rw [h3] at h
          cases h
        · rw [h3] at h
          cases h
          obtain ⟨he, hsfx⟩ := ih a2 b2 h3
          constructor
          · rw [List.cons_append]
            exact congrArg _ he
          · rcases hsfx with ⟨m, hm⟩ | ⟨m, hm⟩
            · exact Or.inl ⟨c :: m, by rw [hm]; rfl⟩
            · exact Or.inr ⟨c :: m, by rw [hm]; rfl⟩
      · rw [h2] at h
        dsimp only at h
        cases h
        exact ⟨dropLit_eq _ _ _ h2, Or.inr ⟨[], rfl⟩⟩
    · rw [h1] at h
      dsimp only at h
      cases h
      exact ⟨dropLit_eq _ _ _ h1, Or.inl ⟨[], rfl⟩⟩

theorem matchProcAt_eq (s g span rest : Str) (h : matchProcAt s = some (g, span, rest)) :
    s = span ++ rest
    ∧ ((∃ t, span = ("<bp:process").toList ++ t) ∨ (∃ t, span = ("<process").toList ++ t))
    ∧ ((∃ m, span = m ++ ("</bp:process>").toList) ∨ (∃ m, span = m ++ ("</process>").toList)) := by
  unfold matchProcAt at h
  rcases ho : openScan s with _ | ⟨op, s1⟩
  · rw [ho] at h
    cases h
  · rw [ho] at h
    dsimp only at h
    rcases hi : idBack (s1.takeWhile (fun c => c ≠ '>')).length s1 with _ | ⟨g0, mid, s2⟩
    · rw [hi] at h
      cases h
    · rw [hi] at h
      dsimp only at h
      rcases hc : closeScan s2 with _ | ⟨tail, rest0⟩
      · rw [hc] at h
        cases h
      · rw [hc] at h
        dsimp only at h
        cases h
        obtain ⟨he1, hop⟩ := openScan_eq s op s1 ho
        have he2 : s1 = mid ++ s2 := idBack_eq _ _ _ _ _ hi
        obtain ⟨he3, hsfx⟩ := closeScan_eq s2 tail rest hc
        refine ⟨?_, ?_, ?_⟩
        · rw [he1, he2, he3]
          simp
        · rcases hop with hbp | hpl
          · exact Or.inl ⟨mid ++ tail, by rw [hbp]; simp⟩
          · exact Or.inr ⟨mid ++ tail, by rw [hpl]; simp⟩
        · rcases hsfx with ⟨m, hm⟩ | ⟨m, hm⟩
          · exact Or.inl ⟨op ++ mid ++ m, by rw [hm]; simp⟩
          · exact Or.inr ⟨op ++ mid ++ m, by rw [hm]; simp⟩

theorem findProcsAux_mem : ∀ (fuel : Nat) (s : Str) (m : Str × Str),
    m ∈ findProcsAux fuel s →
    (∃ pre post, s = pre ++ m.2 ++ post)
    ∧ ((∃ t, m.2 = ("<bp:process").toList ++ t) ∨ (∃ t, m.2 = ("<process").toList ++ t))
    ∧ ((∃ q, m.2 = q ++ ("</bp:process>").toList) ∨ (∃ q, m.2 = q ++ ("</process>").toList)) := by
  intro fuel
  induction fuel with
  | zero => intro s m hm; simp [findProcsAux] at hm
  | succ fuel ih =>
    intro s m hm
    cases s with
    | nil => simp [findProcsAux] at hm
    | cons c cs =>
      unfold findProcsAux at hm
      rcases hma : matchProcAt (c :: cs) with _ | ⟨g, span, rest⟩
      · rw [hma] at hm
        dsimp only at hm
        obtain ⟨⟨pre, post, he⟩, hst, hen⟩ := ih cs m hm
        exact ⟨⟨c :: pre, post, by simp [he]⟩, hst, hen⟩
      · rw [hma] at hm
        dsimp only at hm
        obtain ⟨he, hst, hen⟩ := matchProcAt_eq (c :: cs) g span rest hma
        rcases List.mem_cons.mp hm with rfl | hm2
        · exact ⟨⟨[], rest, by rw [he]; rfl⟩, hst, hen⟩
        · obtain ⟨⟨pre, post, he2⟩, hst2, hen2⟩ := ih rest m hm2
          refine ⟨⟨span ++ pre, post, ?_⟩, hst2, hen2⟩
          rw [he, he2]
          simp

/-- Claim C4: on a parse error, split_by_process falls back to the regex
scan over the (possibly wrapped) raw text with the process selector - each
write is the sanitized-id filename holding a fresh XML declaration
followed by the matched span verbatim, and each span is literally a
segment of the scanned text that starts with an open process tag and ends
with a close process tag. -/
theorem split_fallback_regex_spans (content : Str) (output_dir : String) :
    splitByProcessWrites .err output_dir content
      = (findProcs (wrapContent content)).map
          (fun m => (output_dir ++ "/process_" ++ sanitizeStr (String.mk m.1) ++ ".xml",
                     xmlDecl ++ String.mk m.2))
    ∧ ∀ m ∈ findProcs (wrapContent content),
        (∃ pre post, wrapContent content = pre ++ m.2 ++ post)
        ∧ ((∃ t, m.2 = ("<bp:process").toList ++ t) ∨ (∃ t, m.2 = ("<process").toList ++ t))
        ∧ ((∃ q, m.2 = q ++ ("</bp:process>").toList) ∨ (∃ q, m.2 = q ++ ("</process>").toList)) := by
  refine ⟨rfl, ?_⟩
  intro m hm
  exact findProcsAux_mem _ _ m hm

/-- Witness for C4 on a concrete document: the fallback finds the p1
process, and its span is a verbatim segment of the scanned text with the
expected open and close tags. -/
theorem split_fallback_regex_spans_check :
    ((("p1").toList, c4span.data) ∈ findProcs (wrapContent (c4doc.data)))
    ∧ (∃ pre post, wrapContent (c4doc.data) = pre ++ c4span.data ++ post)
    ∧ ((∃ t, c4span.data = ("<bp:process").toList ++ t) ∨ (∃ t, c4span.data = ("<process").toList ++ t)) := by
  have hmem : ((("p1").toList, c4span.data) ∈ findProcs (wrapContent (c4doc.data))) := by decide
  have h := (split_fallback_regex_spans (c4doc.data) ("out")).2 _ hmem
  exact ⟨hmem, h.1, h.2.1⟩
